import Mathlib

/-!
Shallow embedding of `clize/util.py` (the terminal text-layout engine):
the `bound` clamping utility, the `_FormatterColumns` column-width
allocation algorithm, the `_FormatterIndent` scoped indentation, and the
`Formatter` line buffer.  Python integers are modelled as `Int`; Python
lists as `List`; fallible operations (`raise`) as `Except`.  The external
`textwrap` word-wrapping primitive is an excluded collaborator in the
specification and is modelled from the spec's contract (greedy word wrap,
error on non-positive width).
-/

namespace Clize

/-- Value of a `min_widths`/`max_widths` entry: a Python `int` (absolute
column count) or a Python `float` (fraction of the available width),
represented exactly as a rational `p/q`. -/
inductive WVal where
  | abs (n : Int)
  | frac (p q : Int)
deriving DecidableEq

/-- Resolution of one width spec against an available width, as done by
`process_widths` (util.py:129-134): a float `f` becomes `int(f * max_width)`
(truncation toward zero, which is `Int.tdiv`); an int passes through. -/
def WVal.resolve : WVal → Int → Int
  | .abs n, _ => n
  | .frac p q, mw => Int.tdiv (p * mw) q

/-- util.py:104-110 `bound(min, val, max)`: clamp low first (and return
immediately), else clamp high, else pass through. -/
def bound (mn : Option Int) (val : Int) (mx : Option Int) : Int :=
  match mn, mx with
  | some m, some M => if val < m then m else if val > M then M else val
  | some m, none => if val < m then m else val
  | none, some M => if val > M then M else val
  | none, none => val

/-- Core of the discard loop of `compute_widths` (util.py:177-181), on the
reversed length list.  The Python loop repeatedly pops the last element of
the ascending list `maxlen` while `maxlen[-1] > max_width`, and if the list
empties it becomes `[min_widths[i]]`; popping from the tail of `maxlen` is
dropping from the head of its reversal, which gives a structurally
recursive definition. -/
def shrinkRev (cap minw : Int) : List Int → List Int
  | [] => []
  | x :: xs =>
    if x > cap then
      match xs with
      | [] => [minw]
      | y :: ys => shrinkRev cap minw (y :: ys)
    else x :: xs

/-- The discard loop of `compute_widths` (util.py:177-181) acting on the
ascending list of observed cell lengths for a non-wrap column. -/
def shrink (cap minw : Int) (l : List Int) : List Int :=
  (shrinkRev cap minw l.reverse).reverse

/-- One iteration of the loop of `compute_widths` (util.py:171-184) for
column `i`, returning `(width, capacity)` where the capacity is the local
variable `max_width` of the source: `space_left` is
`formatter.max_width - used - sum(min_widths[i+1:])` (with `restMins` the
suffix sum), the capacity is `bound(None, space_left, max_widths[i])`, a
non-wrap column first runs the discard loop, and the yielded width is
`bound(min_widths[i], maxlen[-1], max_width)`. -/
def widthCapStep (fmw used : Int) (wi : Bool) (mi restMins : Int)
    (Mi : Option Int) (li : List Int) : Int × Int :=
  let space_left := fmw - used - restMins
  let cap := bound none space_left Mi
  let li2 := if wi then li else shrink cap mi li
  (bound (some mi) (li2.getLastD 0) (some cap), cap)

/-- The loop of `compute_widths` (util.py:171-184), instrumented to also
return the per-column capacity.  Arguments are the per-column `wrap`
flags, resolved `min_widths`, resolved `max_widths`, the sorted
observed-length lists `maxlens`, and the running `used` total (which
starts at the separator total and accumulates each yielded width). -/
def computeWidthsCapsGo (fmw : Int) :
    List Bool → List Int → List (Option Int) → List (List Int) → Int →
    List (Int × Int)
  | wi :: ws, mi :: ms, Mi :: Ms, li :: ls, used =>
    widthCapStep fmw used wi mi ms.sum Mi li ::
      computeWidthsCapsGo fmw ws ms Ms ls
        (used + (widthCapStep fmw used wi mi ms.sum Mi li).1)
  | _, _, _, _, _ => []

/-- Python `zip(*rows)`: transpose truncated to the shortest row.  With the
uniform row arity enforced by `_FormatterColumns.append` this is the plain
transpose; the `default` is never read for indices below the minimum
length. -/
def zipStar [Inhabited α] (rows : List (List α)) : List (List α) :=
  match rows with
  | [] => []
  | r :: rs =>
    let m := rs.foldl (fun acc l => Nat.min acc l.length) r.length
    (List.range m).map (fun j => (r :: rs).map (fun row => row.getD j default))

/-- State of `_FormatterColumns` (util.py:137-148).  `fmw` records the
owning formatter's immutable `max_width`; `widths` is `none` until
`__exit__` assigns it. -/
structure FormatterColumns where
  fmw : Int
  num : Nat
  spacing : String
  align : List Char
  wrap : List Bool
  min_widths : List WVal
  max_widths : List (Option WVal)
  rows : List (List String)
  finished : Bool
  widths : Option (List Int)
deriving DecidableEq

/-- Separator total `len(self.spacing) * (self.num - 1)` (util.py:166),
the initial value of `used`. -/
def FormatterColumns.sepTotal (c : FormatterColumns) : Int :=
  (c.spacing.length : Int) * ((c.num : Int) - 1)

/-- Resolved `min_widths` list (util.py:168): each spec resolved against
`space_left = formatter.max_width - used`. -/
def FormatterColumns.resolvedMins (c : FormatterColumns) : List Int :=
  c.min_widths.map (fun w => w.resolve (c.fmw - c.sepTotal))

/-- Resolved `max_widths` list (util.py:169); `None` entries pass through. -/
def FormatterColumns.resolvedMaxs (c : FormatterColumns) : List (Option Int) :=
  c.max_widths.map (fun o => o.map (fun w => w.resolve (c.fmw - c.sepTotal)))

/-- The `maxlens` lists (util.py:170): the ascending sorted list of observed
cell lengths for every column of `zip(*rows)`. -/
def FormatterColumns.maxlens (c : FormatterColumns) : List (List Int) :=
  (zipStar c.rows).map
    (fun col => List.insertionSort (· ≤ ·) (col.map (fun s => (s.length : Int))))

/-- `compute_widths` (util.py:165-184) instrumented with each column's
capacity. -/
def FormatterColumns.computeWidthsCaps (c : FormatterColumns) : List (Int × Int) :=
  computeWidthsCapsGo c.fmw c.wrap c.resolvedMins c.resolvedMaxs c.maxlens c.sepTotal

/-- `compute_widths` (util.py:165-184): the per-column widths yielded by the
loop. -/
def FormatterColumns.compute_widths (c : FormatterColumns) : List Int :=
  c.computeWidthsCaps.map Prod.fst

/-- `__exit__` of `_FormatterColumns` (util.py:161-163): mark the layout
finished and freeze `widths`. -/
def FormatterColumns.exit (c : FormatterColumns) : FormatterColumns :=
  { c with finished := true, widths := some c.compute_widths }

/-- Content of one stored line of a `Formatter` (util.py:252): either a
plain string or a `_FormatterRow` (util.py:113-126), which carries its
cells and (a snapshot of) the owning `_FormatterColumns`. -/
inductive RLine where
  | str (s : String)
  | row (cols : FormatterColumns) (cells : List String)
deriving DecidableEq

/-- Python truthiness of a stored line content as tested by
`new_paragraph`, `extend` and `__str__`: an empty string is falsy, a
non-empty string and any `_FormatterRow` object are truthy. -/
def RLine.isTruthy : RLine → Bool
  | .str s => s ≠ ""
  | .row _ _ => true

/-- State of `Formatter` (util.py:236-244).  The `wrapper` field of the
source carries no live state: `wrapper.width` is overwritten at the start
of every `append`, so it is not part of the model. -/
structure Formatter where
  max_width : Int
  lines : List (Int × RLine)
  _indent : Int
deriving DecidableEq

/-- `Formatter.append_raw` (util.py:251-252). -/
def Formatter.append_raw (f : Formatter) (line : RLine) (indent : Int) : Formatter :=
  { f with lines := f.lines ++ [(f._indent + indent, line)] }

/-- `Formatter.get_width` (util.py:254-255). -/
def Formatter.get_width (f : Formatter) (indent : Int) : Int :=
  f.max_width - f._indent - indent

/-- Splitting a string into its whitespace-separated words, the chunks the
external wrapper packs greedily. -/
def wordsGo : List Char → List Char → List String
  | [], acc => if acc = [] then [] else [String.mk acc.reverse]
  | c :: cs, acc =>
    if c.isWhitespace then
      if acc = [] then wordsGo cs [] else String.mk acc.reverse :: wordsGo cs []
    else wordsGo cs (c :: acc)

/-- Words of a string (nonempty maximal runs of non-whitespace). -/
def pyWords (s : String) : List String := wordsGo s.toList []

/-- Greedy packing of words into lines of at most `width` characters (a
single word longer than `width` occupies its own line). -/
def greedyGo (width : Nat) (cur : String) : List String → List String
  | [] => if cur = "" then [] else [cur]
  | w :: ws =>
    if cur = "" then greedyGo width w ws
    else if cur.length + 1 + w.length ≤ width then
      greedyGo width (cur ++ (" ") ++ w) ws
    else cur :: greedyGo width w ws

/-- Modelled from the spec: the external LineWrapper capability
(`textwrap`, excluded from the core as "wrap(text, width) -> sequence of
lines", a greedy word wrap).  A non-positive width is an error raised at
the point the width is used (CPython raises
ValueError "invalid width (must be > 0)" before producing any line). -/
def wrapText (width : Int) (s : String) : Except String (List String) :=
  if width ≤ 0 then .error ("invalid width (must be > 0)")
  else .ok (greedyGo width.toNat ("") (pyWords s))

/-- `Formatter.append` (util.py:246-249): wrap `line` at
`get_width(indent)` and `append_raw` every wrapped line. -/
def Formatter.append (f : Formatter) (line : String) (indent : Int) :
    Except String Formatter :=
  match wrapText (f.get_width indent) line with
  | .error e => .error e
  | .ok ls => .ok (ls.foldl (fun acc wl => acc.append_raw (.str wl) indent) f)

/-- `Formatter.new_paragraph` (util.py:257-259): append one blank line if
the buffer is non-empty and its last stored content is truthy. -/
def Formatter.new_paragraph (f : Formatter) : Formatter :=
  match f.lines.getLast? with
  | some p => if p.2.isTruthy then { f with lines := f.lines ++ [(0, .str "")] } else f
  | none => f

/-- `Formatter.extend` (util.py:261-275) for a `Formatter`-like source
(already a sequence of `(indent, content)` pairs; a plain iterable of
lines corresponds to pairing each line with indent `0`). -/
def Formatter.extend (f : Formatter) (ls : List (Int × RLine)) : Formatter :=
  match ls with
  | [] => f
  | first :: rest =>
    let f1 := if first.2.isTruthy then f.append_raw first.2 first.1 else f.new_paragraph
    rest.foldl (fun acc p => acc.append_raw p.2 p.1) f1

/-- `_FormatterIndent.__enter__` (util.py:221-223). -/
def Formatter.indentEnter (f : Formatter) (d : Int) : Formatter :=
  { f with _indent := f._indent + d }

/-- `_FormatterIndent.__exit__` (util.py:225-226): applied unconditionally,
whether or not the body raised. -/
def Formatter.indentExit (f : Formatter) (d : Int) : Formatter :=
  { f with _indent := f._indent - d }

/-- A `with formatter.indent(d):` block.  The body is a state transformer
that also reports a raised error (`some msg`); `indentExit` runs on the
body's final state in both the normal and the error case, exactly as a
Python `with` runs `__exit__`. -/
def Formatter.withIndent (f : Formatter) (d : Int)
    (body : Formatter → Formatter × Option String) : Formatter × Option String :=
  let p := body (f.indentEnter d)
  (p.1.indentExit d, p.2)

/-- Nested indent scopes: wrap `body` in one scope per delta of `ds`,
innermost last. -/
def nestScopes (ds : List Int) (body : Formatter → Formatter × Option String)
    (f : Formatter) : Formatter × Option String :=
  match ds with
  | [] => body f
  | d :: ds' => f.withIndent d (nestScopes ds' body)

/-- `_FormatterColumns.append` (util.py:153-159): reject a row whose arity
differs from `num` (ValueError), else record the row and `append_raw` it to
the owning formatter.  Note the source checks only the arity, never
`finished`. -/
def FormatterColumns.append (f : Formatter) (c : FormatterColumns)
    (cells : List String) : Except String (Formatter × FormatterColumns) :=
  if cells.length ≠ c.num then
    .error ("expected a different number of cells")
  else
    let c2 := { c with rows := c.rows ++ [cells] }
    .ok (f.append_raw (.row c2 cells) 0, c2)

/-- `Formatter.columns` (util.py:280-284) together with the defaulting done
by `_FormatterColumns.__init__` (util.py:137-148): `None` arguments take the
documented defaults. -/
def Formatter.columns (f : Formatter) (num : Nat) (spacing : String)
    (align : Option (List Char)) (wrap : Option (List Bool))
    (min_widths : Option (List WVal)) (max_widths : Option (List (Option WVal))) :
    FormatterColumns :=
  { fmw := f.max_width
    num := num
    spacing := spacing
    align := align.getD (List.replicate num '<')
    wrap := wrap.getD (false :: List.replicate (num - 1) true)
    min_widths := min_widths.getD (List.replicate num (.abs 2))
    max_widths := max_widths.getD (some (.frac 1 4) :: List.replicate (num - 1) none)
    rows := []
    finished := false
    widths := none }

/-- A run of `n` spaces (Python `' ' * n`, where a negative count yields
the empty string, hence the `Nat` argument). -/
def spaces (n : Nat) : String := String.mk (List.replicate n ' ')

/-- Python `str.rstrip()`: drop trailing whitespace. -/
def rstrip (s : String) : String :=
  String.mk ((s.toList.reverse.dropWhile Char.isWhitespace).reverse)

/-- Python format spec `'{0:{align}{width}}'` for align in `<`, `>`, `^`:
pad `s` with spaces to `w` on the respective side (centering puts the
extra space on the right); a string already at least `w` long is
unchanged. -/
def padTo (align : Char) (w : Nat) (s : String) : String :=
  if w ≤ s.length then s
  else if align = '>' then spaces (w - s.length) ++ s
  else if align = '^' then
    spaces ((w - s.length) / 2) ++ s ++ spaces (w - s.length - (w - s.length) / 2)
  else s ++ spaces (w - s.length)

/-- `_FormatterColumns.format_cell` (util.py:194-200): wrap the cell at its
column width, or, for a non-wrap column whose cell overflows, at the width
remaining through the last column; pad every wrapped line to the chosen
width. -/
def FormatterColumns.format_cell (c : FormatterColumns) (i : Nat) (cell : String) :
    Except String (List String) :=
  let ws := c.widths.getD []
  let width :=
    if c.wrap.getD i false || (cell.length : Int) ≤ ws.getD i 0 then ws.getD i 0
    else (ws.drop i).sum + (c.spacing.length : Int) * ((c.num : Int) - (i : Int) - 1)
  match wrapText width cell with
  | .error e => .error e
  | .ok ls => .ok (ls.map (padTo (c.align.getD i '<') width.toNat))

/-- `itertools.zip_longest(*wcells)` (util.py:190): positions up to the
longest column, missing entries `None`. -/
def zipLongest (cols : List (List String)) : List (List (Option String)) :=
  let n := cols.foldl (fun acc l => Nat.max acc l.length) 0
  (List.range n).map (fun j => cols.map (fun col => col[j]?))

/-- `_FormatterColumns.match_lines` (util.py:202-213): walk the cells of one
wrapped sub-line, replacing missing cells by a space run of the column
width; when a cell overflows its column width, emit the line collected so
far, stop if this was the last column, and restart collection with spacing
that aligns under the next column. -/
def FormatterColumns.match_linesGo (c : FormatterColumns) :
    Nat → List (Option String) → List String → List (List String)
  | _, [], ret => [ret]
  | i, cell? :: rest, ret =>
    let ws := c.widths.getD []
    let cell := match cell? with
      | none => spaces (ws.getD i 0).toNat
      | some s => s
    let ret2 := ret ++ [cell]
    if (cell.length : Int) > ws.getD i 0 then
      if i + 1 = c.num then [ret2]
      else
        ret2 :: c.match_linesGo (i + 1) rest
          [spaces (((ws.take (i + 1)).sum + (c.spacing.length : Int) * (i : Int)).toNat)]
    else c.match_linesGo (i + 1) rest ret2

/-- `_FormatterColumns.format_cells` (util.py:187-192): format every cell,
zip the wrapped sub-lines by position, reflow them through `match_lines`,
join each resulting line list with the separator and strip trailing
whitespace. -/
def FormatterColumns.format_cells (c : FormatterColumns) (cells : List String) :
    Except String (List String) := do
  let wcells ← cells.enum.mapM (fun p => c.format_cell p.1 p.2)
  return (zipLongest wcells).flatMap
    (fun cs => (c.match_linesGo 0 cs []).map
      (fun cline => rstrip (String.intercalate c.spacing cline)))

/-- `Formatter.convert_line` (util.py:297-304): a plain string yields
itself; a `_FormatterRow` yields its `formatter_lines()`, i.e.
`columns.format_cells(cells)` (util.py:125-126). -/
def convert_line : RLine → Except String (List String)
  | .str s => .ok [s]
  | .row c cells => c.format_cells cells

/-- `Formatter.__str__` (util.py:286-295): drop a trailing falsy line,
expand every stored content through `convert_line`, prefix each produced
line with the stored indent, and join with the `'\n'` delimiter.  The
method performs no assignment, so it is a pure function of the state. -/
def Formatter.toStr (f : Formatter) : Except String String := do
  let lines := match f.lines.getLast? with
    | some p => if p.2.isTruthy then f.lines else f.lines.dropLast
    | none => f.lines
  let pieces ← lines.mapM (fun p => do
    let ls ← convert_line p.2
    return ls.map (fun line => spaces p.1.toNat ++ line))
  return String.intercalate ("\n") pieces.flatten

/-- `str(formatter)` as a state transformer: `__str__` contains no
assignment to `self` (util.py:286-304 only reads `lines`, `widths`,
`spacing`, ...), so the resulting state is the input state. -/
def Formatter.render (f : Formatter) : Formatter × Except String String :=
  (f, f.toStr)

/-- A stored line whose content is safe to render: plain text, or a row of
a layout that has been closed (`finished` set and `widths` frozen). -/
def RLine.closedOk : RLine → Bool
  | .str _ => true
  | .row c _ => c.finished && c.widths.isSome

/-- All column layouts referenced from the buffer are closed. -/
def Formatter.allClosed (f : Formatter) : Bool :=
  f.lines.all (fun p => p.2.closedOk)

/-- The public building operations of a `Formatter` named by the spec:
`appendText` (`append`), `appendRaw` (`append_raw`), `paragraphBreak`
(`new_paragraph`) and `extend`. -/
inductive BuildOp where
  | text (s : String) (ind : Int)
  | raw (l : RLine) (ind : Int)
  | parabreak
  | extendF (ls : List (Int × RLine))
deriving DecidableEq

/-- Run one building operation; a raised error (only `append` with a
non-positive width) leaves the buffer unchanged, as in the source. -/
def applyOp (f : Formatter) : BuildOp → Formatter
  | .text s ind =>
    match f.append s ind with
    | .ok f2 => f2
    | .error _ => f
  | .raw l ind => f.append_raw l ind
  | .parabreak => f.new_paragraph
  | .extendF ls => f.extend ls

/-- Run a sequence of building operations. -/
def applyOps (f : Formatter) (ops : List BuildOp) : Formatter :=
  ops.foldl applyOp f

/-- The stored buffer holds no two consecutive falsy (blank) lines. -/
def noTwoBlanks : List (Int × RLine) → Bool
  | [] => true
  | [_] => true
  | a :: b :: rest => (a.2.isTruthy || b.2.isTruthy) && noTwoBlanks (b :: rest)

/-- Operations that never feed a blank line through the raw path: `raw`
only with truthy content, `extend` only with truthy content past the first
element (the first element may be blank: it is routed to
`new_paragraph`). -/
def goodOp : BuildOp → Bool
  | .text _ _ => true
  | .raw l _ => l.isTruthy
  | .parabreak => true
  | .extendF ls => (ls.drop 1).all (fun p => p.2.isTruthy)

/-! Concrete instances used by the witnesses and counterexamples below. -/

/-- An empty 80-column formatter. -/
def fmt80 : Formatter := { max_width := 80, lines := [], _indent := 0 }

/-- A two-column layout in its default configuration (column 0 non-wrap
with fractional max width, column 1 wrapping and unbounded) holding one
ordinary row, on an 80-column formatter. -/
def colsDemo : FormatterColumns :=
  { fmw := 80, num := 2, spacing := "   ", align := ['<', '<'],
    wrap := [false, true], min_widths := [.abs 2, .abs 2],
    max_widths := [some (.frac 1 4), none],
    rows := [["-h", "show help"]], finished := false, widths := none }

/-- A two-column layout whose minimum widths (2 and 20) oversubscribe the
10-column budget; both columns wrap-eligible, no maximums. -/
def colsOverMins : FormatterColumns :=
  { fmw := 10, num := 2, spacing := "   ", align := ['<', '<'],
    wrap := [true, true], min_widths := [.abs 2, .abs 20],
    max_widths := [none, none], rows := [["a", "x"]],
    finished := false, widths := none }

/-- A single-column layout whose minimum width (8) exceeds its maximum
width (5); the single cell is short. -/
def colsMaxClash : FormatterColumns :=
  { fmw := 10, num := 1, spacing := "   ", align := ['<'], wrap := [true],
    min_widths := [.abs 8], max_widths := [some (.abs 5)],
    rows := [["ab"]], finished := false, widths := none }

/-- A formatter holding a plain line and one row of a closed layout. -/
def fmtClosedDemo : Formatter :=
  { max_width := 80,
    lines := [(0, .str ("usage")), (2, .row colsDemo.exit ["-h", "show help"])],
    _indent := 0 }

/-! Helper lemmas about `bound`. -/

theorem bound_some_some (m v M : Int) :
    bound (some m) v (some M) = if v < m then m else if v > M then M else v := rfl

theorem bound_some_none (m v : Int) :
    bound (some m) v none = if v < m then m else v := rfl

theorem bound_none_some (v M : Int) :
    bound none v (some M) = if v > M then M else v := rfl

theorem bound_none_none (v : Int) : bound none v none = v := rfl

theorem bound_none_le_val (v : Int) (M? : Option Int) : bound none v M? ≤ v := by
  cases M?
  · rw [bound_none_none]
  · rw [bound_none_some]; split <;> omega

theorem bound_none_le_max (v M : Int) : bound none v (some M) ≤ M := by
  rw [bound_none_some]; split <;> omega

theorem bound_min_or_le (m v M : Int) :
    bound (some m) v (some M) = m ∨ bound (some m) v (some M) ≤ M := by
  rw [bound_some_some]
  split
  · exact Or.inl rfl
  · split <;> [exact Or.inr le_rfl; exact Or.inr (by omega)]

theorem bound_between (m v M : Int) (h : m ≤ M) :
    m ≤ bound (some m) v (some M) ∧ bound (some m) v (some M) ≤ M := by
  rw [bound_some_some]
  split
  · omega
  · split <;> omega

/-! Helper lemmas about the discard loop `shrink`. -/

theorem shrinkRev_eq_dropWhile (cap minw : Int) :
    ∀ r : List Int, r ≠ [] →
      shrinkRev cap minw r =
        if r.dropWhile (fun x => decide (cap < x)) = [] then [minw]
        else r.dropWhile (fun x => decide (cap < x)) := by
  intro r
  induction r with
  | nil => intro h; exact absurd rfl h
  | cons x xs ih =>
    intro _
    by_cases hx : cap < x
    · have hd : (x :: xs).dropWhile (fun x => decide (cap < x)) =
          xs.dropWhile (fun x => decide (cap < x)) := by
        simp [List.dropWhile_cons, hx]
      cases xs with
      | nil => simp [shrinkRev, hx, hd]
      | cons y ys =>
        rw [hd]
        have := ih (by simp)
        simp only [shrinkRev, if_pos (show x > cap from hx)]
        exact this
    · have hd : (x :: xs).dropWhile (fun x => decide (cap < x)) = x :: xs := by
        simp [List.dropWhile_cons, hx]
      rw [hd]
      cases xs with
      | nil => simp [shrinkRev, hx]
      | cons y ys => simp [shrinkRev, hx]

theorem sorted_reverse_dropWhile_eq_filter (cap : Int) (l : List Int)
    (hs : List.Sorted (· ≤ ·) l) :
    (l.reverse.dropWhile (fun x => decide (cap < x))).reverse =
      l.filter (fun x => decide (x ≤ cap)) := by
  induction l using List.reverseRecOn with
  | nil => simp
  | append_singleton l' b ih =>
    have hs2 : List.Pairwise (· ≤ ·) (l' ++ [b]) := hs
    have hs' : List.Sorted (· ≤ ·) l' := (List.pairwise_append.mp hs2).1
    have hall : ∀ x ∈ l', x ≤ b := by
      intro x hx
      exact (List.pairwise_append.mp hs2).2.2 x hx b (by simp)
    by_cases hb : cap < b
    · have : (l' ++ [b]).reverse.dropWhile (fun x => decide (cap < x)) =
          l'.reverse.dropWhile (fun x => decide (cap < x)) := by
        simp [List.reverse_append, List.dropWhile_cons, hb]
      rw [this, ih hs', List.filter_append]
      simp [List.filter_cons, show ¬ b ≤ cap by omega]
    · have h1 : (l' ++ [b]).reverse.dropWhile (fun x => decide (cap < x)) =
          b :: l'.reverse := by
        simp [List.reverse_append, List.dropWhile_cons, hb]
      rw [h1, List.filter_append]
      have h2 : l'.filter (fun x => decide (x ≤ cap)) = l' := by
        rw [List.filter_eq_self]
        intro a ha
        simp only [decide_eq_true_eq]
        exact le_trans (hall a ha) (by omega)
      simp [h2, List.filter_cons, show b ≤ cap by omega]

/-- Claim C4: during width computation of a closed ColumnLayout, a
non-wrap-eligible column's discard loop (`shrink`, the loop of
`compute_widths` at util.py:177-181) removes the largest observed length
while the largest remaining one exceeds the column's capacity `cap`; on an
ascending (sorted, as `compute_widths` builds it) non-empty length list the
surviving list is exactly the lengths that are at most `cap` — so the
pre-bounding width, its last element, is the largest remaining length — and
if every length is discarded the list falls back to the resolved minimum
width. -/
theorem c4_shrink_spec (l : List Int) (cap minw : Int)
    (hs : List.Sorted (· ≤ ·) l) (hne : l ≠ []) :
    shrink cap minw l =
      if l.filter (fun x => decide (x ≤ cap)) = [] then [minw]
      else l.filter (fun x => decide (x ≤ cap)) := by
  have hrevne : l.reverse ≠ [] := by simpa using hne
  have h1 := shrinkRev_eq_dropWhile cap minw l.reverse hrevne
  have h2 := sorted_reverse_dropWhile_eq_filter cap l hs
  unfold shrink
  rw [h1]
  by_cases hF : l.filter (fun x => decide (x ≤ cap)) = []
  · have hdw : l.reverse.dropWhile (fun x => decide (cap < x)) = [] := by
      apply List.reverse_eq_nil_iff.mp
      rw [h2, hF]
    rw [if_pos hdw, if_pos hF]
    rfl
  · have hdw : l.reverse.dropWhile (fun x => decide (cap < x)) ≠ [] := by
      intro h0
      apply hF
      rw [← h2, h0]
      rfl
    rw [if_neg hdw, if_neg hF, h2]

/-- Witness for C4 at the concrete ascending length list `[1, 3, 7]` with
capacity `5` and minimum `2`: the outlier `7` is discarded and the result
is `[1, 3]`. -/
theorem c4_shrink_spec_witness :
    List.Sorted (· ≤ ·) ([1, 3, 7] : List Int) ∧ ([1, 3, 7] : List Int) ≠ [] ∧
    shrink 5 2 [1, 3, 7] =
      if ([1, 3, 7] : List Int).filter (fun x => decide (x ≤ 5)) = [] then [2]
      else ([1, 3, 7] : List Int).filter (fun x => decide (x ≤ 5)) :=
  ⟨by decide, by decide, c4_shrink_spec [1, 3, 7] 5 2 (by decide) (by decide)⟩

/-- Claim C9: in `bound(min, val, max)` (util.py:104-110) the low clamp
takes priority and returns immediately: when `min` is set and `val < min`
the result is exactly `min`, whatever `max` is (even when `min > max`); the
high clamp to `max` is reached only when `val >= min`. -/
theorem c9_bound_low_priority (m v : Int) (M? : Option Int) :
    (v < m → bound (some m) v M? = m) ∧
    (m ≤ v →
      bound (some m) v M? =
        (match M? with
          | some M => if v > M then M else v
          | none => v)) := by
  constructor
  · intro h
    cases M?
    · rw [bound_some_none, if_pos h]
    · rw [bound_some_some, if_pos h]
  · intro h
    cases M?
    · rw [bound_some_none, if_neg (by omega)]
    · rw [bound_some_some, if_neg (by omega)]

/-- Witness for C9 at `min = 10`, `val = 1`, `max = 5`: the result is `10`
although `min` exceeds `max`. -/
theorem c9_bound_low_priority_witness :
    bound (some 10) 1 (some 5) = 10 ∧ (5 : Int) < 10 :=
  ⟨(c9_bound_low_priority 10 1 (some 5)).1 (by decide), by decide⟩

/-! Helper lemmas about the width-computation loop. -/

theorem widthCapStep_snd (fmw used : Int) (wi : Bool) (mi restMins : Int)
    (Mi : Option Int) (li : List Int) :
    (widthCapStep fmw used wi mi restMins Mi li).2 =
      bound none (fmw - used - restMins) Mi := rfl

theorem widthCapStep_fst (fmw used : Int) (wi : Bool) (mi restMins : Int)
    (Mi : Option Int) (li : List Int) :
    (widthCapStep fmw used wi mi restMins Mi li).1 =
      bound (some mi)
        ((if wi then li
          else shrink (widthCapStep fmw used wi mi restMins Mi li).2 mi li).getLastD 0)
        (some (widthCapStep fmw used wi mi restMins Mi li).2) := rfl

theorem widthCapStep_cap_le (fmw used : Int) (wi : Bool) (mi restMins : Int)
    (Mi : Option Int) (li : List Int) :
    (widthCapStep fmw used wi mi restMins Mi li).2 ≤ fmw - used - restMins := by
  rw [widthCapStep_snd]
  exact bound_none_le_val _ _

theorem widthCapStep_cap_le_max (fmw used : Int) (wi : Bool)
    (mi restMins M : Int) (li : List Int) :
    (widthCapStep fmw used wi mi restMins (some M) li).2 ≤ M := by
  rw [widthCapStep_snd]
  exact bound_none_le_max _ _

theorem widthCapStep_min_or_le (fmw used : Int) (wi : Bool) (mi restMins : Int)
    (Mi : Option Int) (li : List Int) :
    (widthCapStep fmw used wi mi restMins Mi li).1 = mi ∨
      (widthCapStep fmw used wi mi restMins Mi li).1 ≤
        (widthCapStep fmw used wi mi restMins Mi li).2 := by
  rw [widthCapStep_fst]
  exact bound_min_or_le _ _ _

theorem widthCapStep_between (fmw used : Int) (wi : Bool) (mi restMins : Int)
    (Mi : Option Int) (li : List Int)
    (h : mi ≤ (widthCapStep fmw used wi mi restMins Mi li).2) :
    mi ≤ (widthCapStep fmw used wi mi restMins Mi li).1 ∧
      (widthCapStep fmw used wi mi restMins Mi li).1 ≤
        (widthCapStep fmw used wi mi restMins Mi li).2 := by
  rw [widthCapStep_fst]
  exact bound_between _ _ _ h

theorem computeWidthsCapsGo_sum_le (fmw : Int) :
    ∀ (ms : List Int) (ws : List Bool) (Ms : List (Option Int))
      (ls : List (List Int)) (used : Int),
      ws.length = ms.length → Ms.length = ms.length → ls.length = ms.length →
      used + ms.sum ≤ fmw →
      used + ((computeWidthsCapsGo fmw ws ms Ms ls used).map Prod.fst).sum ≤ fmw := by
  intro ms
  induction ms with
  | nil =>
    intro ws Ms ls used h1 h2 h3 hb
    rw [List.length_nil] at h1 h2 h3
    obtain rfl := List.length_eq_zero.mp h1
    obtain rfl := List.length_eq_zero.mp h2
    obtain rfl := List.length_eq_zero.mp h3
    have hgo : computeWidthsCapsGo fmw [] [] [] [] used = [] := rfl
    rw [hgo]
    simpa using hb
  | cons mi ms ih =>
    intro ws Ms ls used h1 h2 h3 hb
    cases ws with
    | nil => simp at h1
    | cons wi ws =>
    cases Ms with
    | nil => simp at h2
    | cons Mi Ms =>
    cases ls with
    | nil => simp at h3
    | cons li ls =>
    have hgo : computeWidthsCapsGo fmw (wi :: ws) (mi :: ms) (Mi :: Ms) (li :: ls) used =
        widthCapStep fmw used wi mi ms.sum Mi li ::
          computeWidthsCapsGo fmw ws ms Ms ls
            (used + (widthCapStep fmw used wi mi ms.sum Mi li).1) := rfl
    rw [hgo]
    have hcases := widthCapStep_min_or_le fmw used wi mi ms.sum Mi li
    have hcaple := widthCapStep_cap_le fmw used wi mi ms.sum Mi li
    simp only [List.sum_cons] at hb
    have hb2 : (used + (widthCapStep fmw used wi mi ms.sum Mi li).1) + ms.sum ≤ fmw := by
      rcases hcases with h | h
      · rw [h]; omega
      · omega
    have ih2 := ih ws Ms ls (used + (widthCapStep fmw used wi mi ms.sum Mi li).1)
      (by simpa using h1) (by simpa using h2) (by simpa using h3) hb2
    simp only [List.map_cons, List.sum_cons]
    omega

theorem computeWidthsCapsGo_get_spec (fmw : Int) :
    ∀ (i : Nat) (ws : List Bool) (ms : List Int) (Ms : List (Option Int))
      (ls : List (List Int)) (used : Int) (mi : Int) (p : Int × Int),
      ms[i]? = some mi →
      (computeWidthsCapsGo fmw ws ms Ms ls used)[i]? = some p →
      (mi ≤ p.2 → mi ≤ p.1 ∧ p.1 ≤ p.2) ∧
      (∀ M, Ms[i]? = some (some M) → p.2 ≤ M) := by
  intro i
  induction i with
  | zero =>
    intro ws ms Ms ls used mi p hm hp
    cases ws with
    | nil =>
      rw [show computeWidthsCapsGo fmw [] ms Ms ls used = [] from rfl] at hp
      simp at hp
    | cons wi ws =>
    cases ms with
    | nil => simp at hm
    | cons mi0 ms =>
    cases Ms with
    | nil =>
      rw [show computeWidthsCapsGo fmw (wi :: ws) (mi0 :: ms) [] ls used = [] from rfl] at hp
      simp at hp
    | cons Mi Ms =>
    cases ls with
    | nil =>
      rw [show computeWidthsCapsGo fmw (wi :: ws) (mi0 :: ms) (Mi :: Ms) [] used = []
        from rfl] at hp
      simp at hp
    | cons li ls =>
    rw [show computeWidthsCapsGo fmw (wi :: ws) (mi0 :: ms) (Mi :: Ms) (li :: ls) used =
        widthCapStep fmw used wi mi0 ms.sum Mi li ::
          computeWidthsCapsGo fmw ws ms Ms ls
            (used + (widthCapStep fmw used wi mi0 ms.sum Mi li).1) from rfl] at hp
    simp only [List.getElem?_cons_zero, Option.some.injEq] at hm hp
    subst hm
    subst hp
    constructor
    · intro hle
      exact widthCapStep_between fmw used wi mi0 ms.sum Mi li hle
    · intro M hM
      simp only [List.getElem?_cons_zero, Option.some.injEq] at hM
      subst hM
      exact widthCapStep_cap_le_max fmw used wi mi0 ms.sum M li
  | succ i ih =>
    intro ws ms Ms ls used mi p hm hp
    cases ws with
    | nil =>
      rw [show computeWidthsCapsGo fmw [] ms Ms ls used = [] from rfl] at hp
      simp at hp
    | cons wi ws =>
    cases ms with
    | nil => simp at hm
    | cons mi0 ms =>
    cases Ms with
    | nil =>
      rw [show computeWidthsCapsGo fmw (wi :: ws) (mi0 :: ms) [] ls used = [] from rfl] at hp
      simp at hp
    | cons Mi Ms =>
    cases ls with
    | nil =>
      rw [show computeWidthsCapsGo fmw (wi :: ws) (mi0 :: ms) (Mi :: Ms) [] used = []
        from rfl] at hp
      simp at hp
    | cons li ls =>
    rw [show computeWidthsCapsGo fmw (wi :: ws) (mi0 :: ms) (Mi :: Ms) (li :: ls) used =
        widthCapStep fmw used wi mi0 ms.sum Mi li ::
          computeWidthsCapsGo fmw ws ms Ms ls
            (used + (widthCapStep fmw used wi mi0 ms.sum Mi li).1) from rfl] at hp
    simp only [List.getElem?_cons_succ] at hm hp
    have := ih ws ms Ms ls (used + (widthCapStep fmw used wi mi0 ms.sum Mi li).1) mi p hm hp
    refine ⟨this.1, ?_⟩
    intro M hM
    simp only [List.getElem?_cons_succ] at hM
    exact this.2 M hM

theorem foldl_min_const {α : Type} (n : Nat) :
    ∀ rs : List (List α), (∀ l ∈ rs, l.length = n) →
      rs.foldl (fun acc l => Nat.min acc l.length) n = n := by
  intro rs
  induction rs with
  | nil => intro _; rfl
  | cons r rs ih =>
    intro h
    simp only [List.foldl_cons]
    rw [h r (by simp)]
    have hmin : Nat.min n n = n := by simp [Nat.min_def]
    rw [hmin]
    exact ih (fun l hl => h l (by simp [hl]))

theorem zipStar_length {α : Type} [Inhabited α] (rows : List (List α)) (n : Nat)
    (hne : rows ≠ []) (h : ∀ r ∈ rows, r.length = n) :
    (zipStar rows).length = n := by
  cases rows with
  | nil => exact absurd rfl hne
  | cons r rs =>
    simp only [zipStar, List.length_map, List.length_range]
    rw [h r (by simp)]
    exact foldl_min_const n rs (fun l hl => h l (by simp [hl]))

/-- Claim C2 (amended): for a closed ColumnLayout whose per-column
configuration lists have the layout's arity, whose row set is non-empty
with the enforced arity, and whose separator total plus resolved minimum
widths fit in the formatter's `max_width`, the computed widths satisfy
`sum(widths) + len(separator)*(numColumns-1) <= maxWidth`.  (The
unconditional claim is false: when the resolved minimums oversubscribe the
budget, the low clamp of `bound` pushes the sum past `maxWidth`; see the
counterexample.) -/
theorem c2_amended (c : FormatterColumns)
    (hw : c.wrap.length = c.num) (hmn : c.min_widths.length = c.num)
    (hmx : c.max_widths.length = c.num)
    (hrows : c.rows ≠ []) (harity : ∀ r ∈ c.rows, r.length = c.num)
    (hbudget : c.sepTotal + c.resolvedMins.sum ≤ c.fmw) :
    c.compute_widths.sum + c.sepTotal ≤ c.fmw := by
  have hmins : c.resolvedMins.length = c.num := by
    simp [FormatterColumns.resolvedMins, hmn]
  have hmaxs : c.resolvedMaxs.length = c.num := by
    simp [FormatterColumns.resolvedMaxs, hmx]
  have hml : c.maxlens.length = c.num := by
    simp only [FormatterColumns.maxlens, List.length_map]
    exact zipStar_length c.rows c.num hrows harity
  have hsum := computeWidthsCapsGo_sum_le c.fmw c.resolvedMins c.wrap c.resolvedMaxs
    c.maxlens c.sepTotal (by omega) (by omega) (by omega) (by omega)
  have heq : c.compute_widths =
      (computeWidthsCapsGo c.fmw c.wrap c.resolvedMins c.resolvedMaxs c.maxlens
        c.sepTotal).map Prod.fst := rfl
  rw [heq]
  omega

/-- Counterexample to C2 as stated: with minimum widths 2 and 20 on a
10-column budget (separator width 3) and a single short row, the closed
layout's widths are `[2, 20]`, and `2 + 20 + 3*(2-1) = 25 > 10`. -/
theorem c2_counterexample :
    (colsOverMins.exit).widths = some [2, 20] ∧
    ¬ (((colsOverMins.exit).widths.getD []).sum +
        (colsOverMins.spacing.length : Int) * ((colsOverMins.num : Int) - 1) ≤
        colsOverMins.fmw) := by decide

/-- Witness for C2 (amended) on the representative two-column layout
`colsDemo`. -/
theorem c2_amended_witness :
    (colsDemo.wrap.length = colsDemo.num ∧
     colsDemo.min_widths.length = colsDemo.num ∧
     colsDemo.max_widths.length = colsDemo.num ∧
     colsDemo.rows ≠ [] ∧
     (∀ r ∈ colsDemo.rows, r.length = colsDemo.num) ∧
     colsDemo.sepTotal + colsDemo.resolvedMins.sum ≤ colsDemo.fmw) ∧
    colsDemo.compute_widths.sum + colsDemo.sepTotal ≤ colsDemo.fmw :=
  ⟨⟨by decide, by decide, by decide, by decide, by decide, by decide⟩,
   c2_amended colsDemo (by decide) (by decide) (by decide) (by decide)
     (by decide) (by decide)⟩

/-- Claim C3 (amended): for every column `i` of a closed ColumnLayout the
instrumented computation pairs the frozen width `p.1` with the column's
capacity `p.2` (the budget remaining after separators, earlier widths and
later minimums, clamped by `resolved(maxWidth[i])`); the capacity never
exceeds `resolved(maxWidth[i])` when that is set, and PROVIDED
`resolved(minWidth[i]) <= capacity` the claimed bracketing
`resolved(minWidth[i]) <= widths[i] <= capacity <= resolved(maxWidth[i])`
holds.  (Unconditionally the claim is false: when the resolved minimum
exceeds the capacity the low clamp of `bound` wins and the width exceeds
the maximum, or conversely the capacity clamp pulls the width below the
minimum; see the counterexample.) -/
theorem c3_amended (c : FormatterColumns) (i : Nat) (mi : Int) (p : Int × Int)
    (hm : c.resolvedMins[i]? = some mi)
    (hp : c.computeWidthsCaps[i]? = some p) :
    c.compute_widths[i]? = some p.1 ∧
    (mi ≤ p.2 → mi ≤ p.1 ∧ p.1 ≤ p.2) ∧
    (∀ M, c.resolvedMaxs[i]? = some (some M) → p.2 ≤ M) := by
  refine ⟨?_, ?_⟩
  · have heq : c.compute_widths = c.computeWidthsCaps.map Prod.fst := rfl
    rw [heq, List.getElem?_map, hp]
    rfl
  · exact computeWidthsCapsGo_get_spec c.fmw i c.wrap c.resolvedMins c.resolvedMaxs
      c.maxlens c.sepTotal mi p hm hp

/-- Counterexample to C3 as stated: a single wrap-eligible column with
minimum width 8, maximum width 5 and a 2-character cell freezes width 8,
which exceeds the resolved maximum 5. -/
theorem c3_counterexample :
    (colsMaxClash.exit).finished = true ∧
    (colsMaxClash.exit).widths = some [8] ∧
    colsMaxClash.resolvedMaxs = [some 5] ∧
    ¬ ((8 : Int) ≤ 5) := by decide

/-- Witness for C3 (amended) on `colsDemo`, column 0: resolved minimum 2,
width 2, capacity 19 = resolved maximum. -/
theorem c3_amended_witness :
    colsDemo.resolvedMins[0]? = some 2 ∧
    colsDemo.computeWidthsCaps[0]? = some (2, 19) ∧
    (colsDemo.compute_widths[0]? = some 2 ∧
      ((2 : Int) ≤ 19 → (2 : Int) ≤ 2 ∧ (2 : Int) ≤ 19) ∧
      (∀ M, colsDemo.resolvedMaxs[0]? = some (some M) → (19 : Int) ≤ M)) :=
  ⟨by decide, by decide, c3_amended colsDemo 0 2 (2, 19) (by decide) (by decide)⟩

/-- Claim C1 (amended): `_FormatterColumns.append` (util.py:153-159) checks
only the row arity, never `finished`, so appending to a closed layout does
not raise: with the correct number of cells the call succeeds, records the
row in `rows`, and appends it raw to the owning formatter. -/
theorem c1_amended (f : Formatter) (c : FormatterColumns) (cells : List String)
    (_hfin : c.finished = true) (harity : cells.length = c.num) :
    FormatterColumns.append f c cells =
      .ok ({ f with lines := f.lines ++
               [(f._indent + 0, .row { c with rows := c.rows ++ [cells] } cells)] },
           { c with rows := c.rows ++ [cells] }) := by
  unfold FormatterColumns.append
  rw [if_neg (by simp [harity])]
  rfl

/-- Counterexample to C1 as stated: on the closed layout `colsDemo.exit`
(whose `finished` flag is set) a well-shaped `append` returns `ok` and the
new row is recorded — it does not fail. -/
theorem c1_counterexample :
    (colsDemo.exit).finished = true ∧
    (match FormatterColumns.append fmt80 colsDemo.exit ["-v", "verbose"] with
      | .ok p => p.2.rows
      | .error _ => []) = [["-h", "show help"], ["-v", "verbose"]] := by decide

/-- Witness for C1 (amended) on the closed layout `colsDemo.exit`. -/
theorem c1_amended_witness :
    (colsDemo.exit).finished = true ∧
    (["-x", "also fine"] : List String).length = (colsDemo.exit).num ∧
    FormatterColumns.append fmt80 colsDemo.exit ["-x", "also fine"] =
      .ok ({ fmt80 with lines := fmt80.lines ++
               [(fmt80._indent + 0,
                 .row { colsDemo.exit with
                          rows := (colsDemo.exit).rows ++ [["-x", "also fine"]] }
                   ["-x", "also fine"])] },
           { colsDemo.exit with
               rows := (colsDemo.exit).rows ++ [["-x", "also fine"]] }) :=
  ⟨by decide, by decide,
   c1_amended fmt80 colsDemo.exit ["-x", "also fine"] (by decide) (by decide)⟩

/-- Claim C5: for any nest of indent scopes with arbitrary deltas around a
body that does not itself change the indent level, the formatter's indent
level after all the exits equals its value before the first enter — also
when the body reports a raised error, since `indentExit` is applied to the
body's final state unconditionally; nesting composes additively. -/
theorem c5_indent_restore (ds : List Int)
    (body : Formatter → Formatter × Option String) (f : Formatter)
    (hbody : ∀ g, ((body g).1)._indent = g._indent) :
    ((nestScopes ds body f).1)._indent = f._indent := by
  induction ds generalizing f with
  | nil => exact hbody f
  | cons d ds ih =>
    show ((f.withIndent d (nestScopes ds body)).1)._indent = f._indent
    unfold Formatter.withIndent
    simp only [Formatter.indentExit]
    rw [ih (f.indentEnter d)]
    simp only [Formatter.indentEnter]
    omega

/-- Witness for C5: two nested scopes (deltas 2 and 3) around a body that
raises; the indent level comes back to 0 and the error is propagated. -/
theorem c5_indent_restore_witness :
    ((nestScopes [2, 3] (fun g => (g, some ("boom"))) fmt80).1)._indent =
        fmt80._indent ∧
    (nestScopes [2, 3] (fun g => (g, some ("boom"))) fmt80).2 = some ("boom") :=
  ⟨c5_indent_restore [2, 3] (fun g => (g, some ("boom"))) fmt80 (fun _ => rfl), rfl⟩

/-- Claim C7: `__str__` (util.py:286-304) performs no assignment, so
rendering a formatter whose layouts are all closed returns the state
unchanged, and rendering twice in succession yields the identical
string. -/
theorem c7_render_idempotent (f : Formatter) (_h : f.allClosed = true) :
    (f.render).1 = f ∧ ((f.render).1.render).2 = (f.render).2 :=
  ⟨rfl, rfl⟩

/-- Witness for C7 on a formatter holding a plain line and a closed-layout
row. -/
theorem c7_render_idempotent_witness :
    fmtClosedDemo.allClosed = true ∧
    ((fmtClosedDemo.render).1 = fmtClosedDemo ∧
     ((fmtClosedDemo.render).1.render).2 = (fmtClosedDemo.render).2) :=
  ⟨by decide, c7_render_idempotent fmtClosedDemo (by decide)⟩

/-- Folding `append_raw` over a list of plain strings extends the buffer by
the corresponding `(indent, line)` pairs. -/
theorem foldl_append_raw_str (ind : Int) :
    ∀ (ls : List String) (f : Formatter),
      ls.foldl (fun acc wl => acc.append_raw (.str wl) ind) f =
        { f with lines := f.lines ++ ls.map (fun wl => (f._indent + ind, .str wl)) } := by
  intro ls
  induction ls with
  | nil => intro f; simp
  | cons wl ls ih =>
    intro f
    simp only [List.foldl_cons, List.map_cons]
    rw [ih (f.append_raw (.str wl) ind)]
    simp [Formatter.append_raw]

/-- Claim C8: `Formatter.append` (util.py:246-249) wraps at
`get_width(indent) = max_width - indentLevel - extraIndent`; when that
resolved width is non-positive the call fails with the width error at that
point (nothing is clipped or appended), and when it is positive the call
succeeds and appends exactly the wrapped lines at the resolved indent. -/
theorem c8_append_width_error (f : Formatter) (line : String) (ind : Int) :
    (f.get_width ind ≤ 0 →
      f.append line ind = .error ("invalid width (must be > 0)")) ∧
    (0 < f.get_width ind →
      f.append line ind = .ok ({ f with lines := (f.lines ++
        (greedyGo (f.get_width ind).toNat ("") (pyWords line)).map
          (fun wl => (f._indent + ind, .str wl))) })) := by
  constructor
  · intro h
    unfold Formatter.append wrapText
    rw [if_pos h]
  · intro h
    unfold Formatter.append wrapText
    rw [if_neg (by omega)]
    exact congrArg Except.ok (foldl_append_raw_str ind _ f)

/-- Witness for C8: an over-indented 5-column formatter fails with the
width error, while an 80-column formatter appends the wrapped lines. -/
theorem c8_append_width_error_witness :
    Formatter.append { max_width := 5, lines := [], _indent := 10 } ("hello") 0 =
      .error ("invalid width (must be > 0)") ∧
    Formatter.append fmt80 ("hello world") 0 =
      .ok ({ fmt80 with lines := (fmt80.lines ++
        (greedyGo (Formatter.get_width fmt80 0).toNat ("") (pyWords ("hello world"))).map
          (fun wl => (fmt80._indent + 0, .str wl))) }) :=
  ⟨(c8_append_width_error { max_width := 5, lines := [], _indent := 10 } ("hello") 0).1
      (by decide),
   (c8_append_width_error fmt80 ("hello world") 0).2 (by decide)⟩

/-- Claim C10: with a positive resolved width, `Formatter.append` on a
string with no words (empty or whitespace-only) succeeds and appends
nothing at all — in particular no blank line. -/
theorem c10_append_blank (f : Formatter) (line : String) (ind : Int)
    (hw : 0 < f.get_width ind) (hempty : pyWords line = []) :
    f.append line ind = .ok f := by
  unfold Formatter.append wrapText
  rw [hempty, if_neg (by omega)]
  rfl

/-- Witness for C10: appending the whitespace-only string to an 80-column
formatter returns it unchanged. -/
theorem c10_append_blank_witness :
    (0 : Int) < fmt80.get_width 0 ∧ pyWords ("   ") = [] ∧
    fmt80.append ("   ") 0 = .ok fmt80 :=
  ⟨by decide, by decide, c10_append_blank fmt80 ("   ") 0 (by decide) (by decide)⟩

/-! Helper lemmas for the blank-line invariant (claim C6). -/

theorem noTwoBlanks_snoc (y : Int × RLine) :
    ∀ xs : List (Int × RLine), noTwoBlanks xs = true →
      (y.2.isTruthy = true ∨ ∀ a, xs.getLast? = some a → a.2.isTruthy = true) →
      noTwoBlanks (xs ++ [y]) = true := by
  intro xs
  induction xs with
  | nil => intro _ _; rfl
  | cons a t ih =>
    intro h hy
    cases t with
    | nil =>
      rcases hy with hy | hy
      · simp [noTwoBlanks, hy]
      · simp [noTwoBlanks, hy a rfl]
    | cons b rest =>
      simp only [noTwoBlanks, Bool.and_eq_true] at h
      have htail : noTwoBlanks ((b :: rest) ++ [y]) = true := by
        refine ih h.2 ?_
        rcases hy with hy | hy
        · exact Or.inl hy
        · refine Or.inr (fun a2 ha2 => hy a2 ?_)
          rw [List.getLast?_cons_cons]
          exact ha2
      simp only [List.cons_append, noTwoBlanks, Bool.and_eq_true]
      exact ⟨h.1, by simpa using htail⟩

theorem append_raw_noTwoBlanks (f : Formatter) (l : RLine) (ind : Int)
    (h : noTwoBlanks f.lines = true) (hl : l.isTruthy = true) :
    noTwoBlanks (f.append_raw l ind).lines = true :=
  noTwoBlanks_snoc _ f.lines h (Or.inl hl)

theorem new_paragraph_noTwoBlanks (f : Formatter)
    (h : noTwoBlanks f.lines = true) :
    noTwoBlanks f.new_paragraph.lines = true := by
  cases hl : f.lines.getLast? with
  | none => simp only [Formatter.new_paragraph, hl]; exact h
  | some p =>
    simp only [Formatter.new_paragraph, hl]
    by_cases hp : p.2.isTruthy = true
    · rw [if_pos hp]
      exact noTwoBlanks_snoc _ f.lines h
        (Or.inr (fun a ha => by rw [hl] at ha; cases ha; exact hp))
    · rw [if_neg hp]; exact h

theorem new_paragraph_idem (f : Formatter) :
    f.new_paragraph.new_paragraph = f.new_paragraph := by
  cases hl : f.lines.getLast? with
  | none =>
    have h1 : f.new_paragraph = f := by simp [Formatter.new_paragraph, hl]
    rw [h1]; exact h1
  | some p =>
    by_cases hp : p.2.isTruthy = true
    · have h1 : f.new_paragraph = { f with lines := f.lines ++ [(0, .str (""))] } := by
        simp [Formatter.new_paragraph, hl, hp]
      have h2 : ({ f with lines := f.lines ++ [(0, .str (""))] } : Formatter).new_paragraph
          = { f with lines := f.lines ++ [(0, .str (""))] } := by
        have hlast : (f.lines ++ [((0 : Int), RLine.str (""))]).getLast? =
            some (0, .str ("")) := by
          simp
        simp [Formatter.new_paragraph, hlast, RLine.isTruthy]
      rw [h1, h2]
    · have h1 : f.new_paragraph = f := by simp [Formatter.new_paragraph, hl, hp]
      rw [h1]; exact h1

theorem foldl_append_raw_noTwoBlanks :
    ∀ (ls : List (Int × RLine)) (f : Formatter),
      noTwoBlanks f.lines = true → (∀ p ∈ ls, p.2.isTruthy = true) →
      noTwoBlanks (ls.foldl (fun acc p => acc.append_raw p.2 p.1) f).lines = true := by
  intro ls
  induction ls with
  | nil => intro f h _; exact h
  | cons q ls ih =>
    intro f h hall
    simp only [List.foldl_cons]
    exact ih _ (append_raw_noTwoBlanks f q.2 q.1 h (hall q (by simp)))
      (fun p hp => hall p (by simp [hp]))

theorem foldl_append_raw_str_noTwoBlanks (ind : Int) :
    ∀ (ls : List String) (f : Formatter),
      noTwoBlanks f.lines = true → (∀ wl ∈ ls, wl ≠ "") →
      noTwoBlanks
        (ls.foldl (fun acc wl => acc.append_raw (.str wl) ind) f).lines = true := by
  intro ls
  induction ls with
  | nil => intro f h _; exact h
  | cons wl ls ih =>
    intro f h hall
    simp only [List.foldl_cons]
    refine ih _ (append_raw_noTwoBlanks f (.str wl) ind h ?_)
      (fun w hw => hall w (by simp [hw]))
    simp [RLine.isTruthy, hall wl (by simp)]

theorem greedyGo_ne_empty (width : Nat) :
    ∀ (ws : List String) (cur l : String), l ∈ greedyGo width cur ws → l ≠ "" := by
  intro ws
  induction ws with
  | nil =>
    intro cur l hl
    unfold greedyGo at hl
    by_cases hc : cur = ""
    · rw [if_pos hc] at hl; cases hl
    · rw [if_neg hc] at hl
      simp only [List.mem_singleton] at hl
      subst hl; exact hc
  | cons w ws ih =>
    intro cur l hl
    unfold greedyGo at hl
    by_cases hc : cur = ""
    · rw [if_pos hc] at hl; exact ih w l hl
    · rw [if_neg hc] at hl
      by_cases hfit : cur.length + 1 + w.length ≤ width
      · rw [if_pos hfit] at hl; exact ih _ l hl
      · rw [if_neg hfit] at hl
        rcases List.mem_cons.mp hl with h | h
        · subst h; exact hc
        · exact ih w l h

theorem append_noTwoBlanks (f : Formatter) (s : String) (ind : Int)
    (h : noTwoBlanks f.lines = true) :
    noTwoBlanks
      (match f.append s ind with
        | .ok f2 => f2
        | .error _ => f).lines = true := by
  unfold Formatter.append wrapText
  by_cases hw : f.get_width ind ≤ 0
  · rw [if_pos hw]; exact h
  · rw [if_neg hw]
    exact foldl_append_raw_str_noTwoBlanks ind _ f h
      (fun wl hwl => greedyGo_ne_empty _ _ _ wl hwl)

theorem extend_noTwoBlanks (f : Formatter) (ls : List (Int × RLine))
    (h : noTwoBlanks f.lines = true)
    (hgood : (ls.drop 1).all (fun p => p.2.isTruthy) = true) :
    noTwoBlanks (f.extend ls).lines = true := by
  cases ls with
  | nil => exact h
  | cons first rest =>
    show noTwoBlanks
      (rest.foldl (fun acc p => acc.append_raw p.2 p.1)
        (if first.2.isTruthy = true then f.append_raw first.2 first.1
         else f.new_paragraph)).lines = true
    simp only [List.drop_succ_cons, List.drop_zero, List.all_eq_true] at hgood
    by_cases hf : first.2.isTruthy = true
    · rw [if_pos hf]
      exact foldl_append_raw_noTwoBlanks rest _
        (append_raw_noTwoBlanks f first.2 first.1 h hf) hgood
    · rw [if_neg hf]
      exact foldl_append_raw_noTwoBlanks rest _ (new_paragraph_noTwoBlanks f h) hgood

theorem applyOp_noTwoBlanks (f : Formatter) (op : BuildOp)
    (h : noTwoBlanks f.lines = true) (hgood : goodOp op = true) :
    noTwoBlanks (applyOp f op).lines = true := by
  cases op with
  | text s ind => exact append_noTwoBlanks f s ind h
  | raw l ind => exact append_raw_noTwoBlanks f l ind h hgood
  | parabreak => exact new_paragraph_noTwoBlanks f h
  | extendF ls => exact extend_noTwoBlanks f ls h hgood

theorem applyOps_noTwoBlanks :
    ∀ (ops : List BuildOp) (f : Formatter),
      noTwoBlanks f.lines = true → ops.all goodOp = true →
      noTwoBlanks (applyOps f ops).lines = true := by
  intro ops
  induction ops with
  | nil => intro f h _; exact h
  | cons op ops ih =>
    intro f h hall
    simp only [List.all_cons, Bool.and_eq_true] at hall
    exact ih (applyOp f op) (applyOp_noTwoBlanks f op h hall.1) hall.2

/-- Claim C6 (amended): the buffer invariant "no two consecutive stored
blank lines" is preserved by every sequence of the public building
operations in which the raw paths (`append_raw`, and `extend` past its
first element, which is routed through `new_paragraph` when blank) are fed
only non-blank content; and `new_paragraph` is idempotent, so calling it
N>1 times consecutively adds at most one blank separator line.  (The
unconditional claim is false: `append_raw` — and `extend` after its first
element — stores blank lines verbatim, so two raw blank appends create two
consecutive blank lines; see the counterexample.) -/
theorem c6_amended :
    (∀ (f : Formatter) (ops : List BuildOp),
        noTwoBlanks f.lines = true → ops.all goodOp = true →
        noTwoBlanks (applyOps f ops).lines = true) ∧
    (∀ f : Formatter, f.new_paragraph.new_paragraph = f.new_paragraph) :=
  ⟨fun f ops h hall => applyOps_noTwoBlanks ops f h hall, new_paragraph_idem⟩

/-- Counterexample to C6 as stated: two consecutive public `append_raw`
calls with an empty string leave two consecutive blank lines in the
buffer. -/
theorem c6_counterexample :
    noTwoBlanks
      (applyOps fmt80 [.raw (.str ("")) 0, .raw (.str ("")) 0]).lines = false := by
  decide

/-- Witness for C6 (amended): text, two consecutive paragraph breaks, more
text — the invariant holds; and `new_paragraph` is idempotent on the
demo formatter. -/
theorem c6_amended_witness :
    (noTwoBlanks fmt80.lines = true ∧
     ([.text ("hello world") 0, .parabreak, .parabreak,
       .text ("next paragraph") 0] : List BuildOp).all goodOp = true ∧
     noTwoBlanks (applyOps fmt80
       [.text ("hello world") 0, .parabreak, .parabreak,
        .text ("next paragraph") 0]).lines = true) ∧
    fmt80.new_paragraph.new_paragraph = fmt80.new_paragraph :=
  ⟨⟨by decide, by decide,
    c6_amended.1 fmt80
      [.text ("hello world") 0, .parabreak, .parabreak, .text ("next paragraph") 0]
      (by decide) (by decide)⟩,
   c6_amended.2 fmt80⟩

end Clize
